import Mathlib

/-!
Verification development for the quantile forecasting core of the
autoquantile repository: batch inference (services/inference_service.py),
training and prediction (model/model.py), input validation, and the
feature encoders (xgboost/preprocessing.py and model/preprocessing.py).
Python floats are modelled as exact rationals or reals, pandas columns as
lists, dictionaries as association lists with first-match lookup and
overwrite-or-append insertion, and raised exceptions as Except values or
an explicit error component of the returned state.
-/

namespace AutoQuantile

/-- Association-list lookup with first-match semantics, modelling Python
dictionary access by key. -/
def dictLookup {β : Type} (name : String) : List (String × β) → Option β
  | [] => none
  | (k, v) :: rest => if k = name then some v else dictLookup name rest

/-- Association-list insertion modelling Python dictionary assignment:
if the key is present every binding for it is overwritten in place,
otherwise the new binding is appended, preserving insertion order. -/
def dictInsert {β : Type} (ms : List (String × β)) (name : String) (b : β) :
    List (String × β) :=
  if ms.any (fun p => p.1 = name) then
    ms.map (fun p => if p.1 = name then (name, b) else p)
  else ms ++ [(name, b)]

/-! ## Batch inference: InferenceService.predict_batch_parallel

The thread pool is modelled by making the nondeterministic schedule an
explicit parameter: completionOrder is the sequence of item indices in the
order their futures are yielded by as_completed before a possible timeout,
timeoutFires says whether the global timeout elapsed first, and done says
which futures had completed when the timeout sweep ran.  The per-item
prediction is the predict method, abstracted as a function returning
Except since the claims quantify over every model. -/

/-- Outcome stored for one batch item, mirroring the Python value placed in
the (index, result) tuple: a PredictionResult, an exception captured at the
worker boundary, the timeout InvalidInputError, or the not-completed
InvalidInputError. -/
inductive BatchOutcome (α : Type) where
  | success (r : α)
  | errResult (e : String)
  | timeoutError (e : String)
  | notCompleted (e : String)
deriving Repr, DecidableEq

/-- Embedding of the inner predict_single closure: call predict and catch
any exception, returning it as data paired with the item index. -/
def predictSingle {φ α : Type} (predict : φ → Except String α) (index : Nat)
    (features : φ) : Nat × BatchOutcome α :=
  match predict features with
  | .ok r => (index, .success r)
  | .error e => (index, .errResult e)

/-- Embedding of the as_completed collection loop: each yielded future
writes its (index, outcome) pair into the results array at its index. -/
def collectCompleted {φ α : Type} (predict : φ → Except String α)
    (featuresList : List φ) (completionOrder : List Nat)
    (results : List (Option (Nat × BatchOutcome α))) :
    List (Option (Nat × BatchOutcome α)) :=
  completionOrder.foldl
    (fun acc idx =>
      match featuresList[idx]? with
      | some f => acc.set idx (some (predictSingle predict idx f))
      | none => acc)
    results

/-- Embedding of the except FutureTimeoutError sweep: every future not yet
done is recorded as an explicit timeout error at its index. -/
def timeoutSweep {α : Type} (n : Nat) (done : Nat → Bool)
    (results : List (Option (Nat × BatchOutcome α))) :
    List (Option (Nat × BatchOutcome α)) :=
  (List.range n).foldl
    (fun acc idx =>
      if done idx then acc
      else acc.set idx
        (some (idx, .timeoutError ("Prediction timeout for item " ++ toString idx))))
    results

/-- Embedding of the final pass: any slot never written becomes an explicit
not-completed error for its index. -/
def finalizeResults {α : Type} (results : List (Option (Nat × BatchOutcome α))) :
    List (Nat × BatchOutcome α) :=
  (results.zipWith
    (fun r i =>
      match r with
      | some p => p
      | none => (i, .notCompleted ("Prediction not completed for item " ++ toString i)))
    (List.range results.length))

/-- Embedding of InferenceService.predict_batch_parallel over an explicit
schedule: start from an all-None results array of the input length, collect
completed futures, run the timeout sweep when the timeout fired, then
finalize. -/
def predict_batch_parallel {φ α : Type} (predict : φ → Except String α)
    (featuresList : List φ) (completionOrder : List Nat)
    (timeoutFires : Bool) (done : Nat → Bool) :
    List (Nat × BatchOutcome α) :=
  let n := featuresList.length
  let results0 : List (Option (Nat × BatchOutcome α)) := List.replicate n none
  let results1 := collectCompleted predict featuresList completionOrder results0
  let results2 := if timeoutFires then timeoutSweep n done results1 else results1
  finalizeResults results2

/-- Invariant of the results array: a written slot holds a pair tagged with
its own index. -/
def Indexed {α : Type} (rs : List (Option (Nat × BatchOutcome α))) : Prop :=
  ∀ i (h : i < rs.length) p, rs[i] = some p → p.1 = i

/-- Generic view of both scheduling loops: fold a list of indices, writing
the index-determined value g idx into the array when g idx is present. -/
def writeFold {β : Type} (g : Nat → Option β) (l : List Nat) (rs : List β) :
    List β :=
  l.foldl (fun acc idx => match g idx with | some v => acc.set idx v | none => acc) rs

/-! ## Input validation: InferenceService.validate_input_features

The trained model enters validation only through the attributes the schema
projection reads: the ranked-encoder dictionary with each encoder exposing
its name-to-rank mapping, the proximity-encoder dictionary, and the fixed
feature-name list.  Python feature values are modelled as a numeric value,
a string, or a value of any other type, and the builtin float coercion on
strings, being external to the repository, is an abstract predicate. -/

/-- Python value in an input feature dictionary. -/
inductive PyValue where
  | vNum (q : ℚ)
  | vStr (s : String)
  | vOther
deriving Repr, DecidableEq

/-- A fitted ranked-category encoder as the validator sees it. -/
structure RankedEncoder where
  mapping : List (String × Int)
deriving Repr, DecidableEq

/-- Attributes of a trained model read by the schema projection and the
validator. -/
structure Forecaster where
  ranked_encoders : List (String × RankedEncoder)
  proximity_encoders : List (String × Unit)
  feature_names : List String
  targets : List String
  quantiles : List ℚ

/-- Embedding of ModelSchema: feature groups computed by set subtraction
from the full feature-name list. -/
structure ModelSchema where
  ranked_features : List String
  proximity_features : List String
  numerical_features : List String
  all_feature_names : List String
  targets : List String
  quantiles : List ℚ

/-- Embedding of ModelSchema construction from a trained model. -/
def get_model_schema (m : Forecaster) : ModelSchema :=
  let ranked := m.ranked_encoders.map Prod.fst
  let prox := m.proximity_encoders.map Prod.fst
  { ranked_features := ranked
    proximity_features := prox
    numerical_features := m.feature_names.filter (fun f =>
      decide (f ∉ ranked ∧ f ∉ prox
        ∧ f ∉ ranked.map (fun h => h ++ "_Enc")
        ∧ f ∉ prox.map (fun h => h ++ "_Enc")))
    all_feature_names := m.feature_names
    targets := m.targets
    quantiles := m.quantiles }

/-- One collected validation error, carrying the same information as the
corresponding Python message string. -/
inductive VErr where
  | missingRanked (names : List String)
  | missingProximity (names : List String)
  | missingNumerical (names : List String)
  | invalidRanked (col : String) (val : PyValue)
  | invalidNumerical (col : String) (val : PyValue)
deriving Repr, DecidableEq

/-- Embedding of ValidationResult. -/
structure ValidationResult where
  is_valid : Bool
  errors : List VErr
deriving Repr, DecidableEq

/-- Python membership test of a value in a list of vocabulary strings:
only an equal string is a member. -/
def pyMemStr (v : PyValue) (keys : List String) : Bool :=
  match v with
  | .vStr s => keys.contains s
  | _ => false

/-- The numerical type check: ints and floats pass outright, strings pass
when the builtin float coercion accepts them, anything else fails. -/
def isNumericLike (floatParses : String → Bool) (v : PyValue) : Bool :=
  match v with
  | .vNum _ => true
  | .vStr s => floatParses s
  | .vOther => false

/-- Features of a group absent from the provided feature dictionary. -/
def missingOf (group provided : List String) : List String :=
  group.filter (fun f => decide (f ∉ provided))

/-- Supplied ranked features whose value fails the vocabulary test of the
corresponding encoder, with that value. -/
def badRankedPairs (model : Forecaster) (features : List (String × PyValue)) :
    List (String × PyValue) :=
  (get_model_schema model).ranked_features.filterMap (fun col =>
    match dictLookup col features with
    | some val =>
      match dictLookup col model.ranked_encoders with
      | some encoder =>
        if pyMemStr val (encoder.mapping.map Prod.fst) then none
        else some (col, val)
      | none => none
    | none => none)

/-- Supplied numerical features whose value is neither numeric nor
numeric-coercible, with that value. -/
def badNumericalPairs (floatParses : String → Bool) (model : Forecaster)
    (features : List (String × PyValue)) : List (String × PyValue) :=
  (get_model_schema model).numerical_features.filterMap (fun col =>
    match dictLookup col features with
    | some val =>
      if isNumericLike floatParses val then none else some (col, val)
    | none => none)

/-- Embedding of InferenceService.validate_input_features: the three
missing-group checks, the ranked vocabulary check and the numerical type
check run in order, each appending its errors; is_valid is emptiness of
the accumulated list. -/
def validate_input_features (floatParses : String → Bool) (model : Forecaster)
    (features : List (String × PyValue)) : ValidationResult :=
  let schema := get_model_schema model
  let provided := features.map Prod.fst
  let missing_ranked := missingOf schema.ranked_features provided
  let errors1 : List VErr :=
    if missing_ranked = [] then [] else [.missingRanked missing_ranked]
  let missing_proximity := missingOf schema.proximity_features provided
  let errors2 : List VErr :=
    if missing_proximity = [] then [] else [.missingProximity missing_proximity]
  let missing_numerical := missingOf schema.numerical_features provided
  let errors3 : List VErr :=
    if missing_numerical = [] then [] else [.missingNumerical missing_numerical]
  let errors4 : List VErr :=
    (badRankedPairs model features).map (fun cv => .invalidRanked cv.1 cv.2)
  let errors5 : List VErr :=
    (badNumericalPairs floatParses model features).map
      (fun cv => .invalidNumerical cv.1 cv.2)
  let errors := errors1 ++ errors2 ++ errors3 ++ errors4 ++ errors5
  { is_valid := errors.isEmpty, errors := errors }

/-! ## Training and prediction: SalaryForecaster (model/model.py)

The external boosting library enters only through the shape of the calls
the training loop makes: xgb.cv returns a table of metric columns, and
xgb.train is recorded by the arguments that distinguish one call from
another, namely the quantile parameter of the objective and the chosen
number of boosting rounds.  The mutable self.models dictionary is the
threaded state; a raised ValueError is the error component of the result,
with the state kept as it was when the exception escaped. -/

/-- Python int() applied to a quantile-scale product: truncation toward
zero. -/
def pyInt (x : ℚ) : Int :=
  if 0 ≤ x then ⌊x⌋ else -⌊-x⌋

/-- Python round() applied to a nonnegative value: round half to even. -/
def pyRound (x : ℚ) : Int :=
  let f := ⌊x⌋
  let frac := x - f
  if frac < 1/2 then f
  else if 1/2 < frac then f + 1
  else if f % 2 = 0 then f else f + 1

/-- The model-bank key built in train and predict. -/
def modelNameOf (target : String) (q : ℚ) : String :=
  target ++ "_p" ++ toString (pyInt (q * 100))

/-- The quantile label used in prediction results. -/
def quantileLabel (q : ℚ) : String :=
  "p" ++ toString (pyInt (q * 100))

/-- The cross-validation result table: named metric columns, one value per
boosting round. -/
structure CVResults where
  cols : List (String × List ℚ)
deriving Repr, DecidableEq

/-- A trained booster, recorded by the arguments of the xgb.train call
that produced it: the quantile parameter and the boosting-round count. -/
structure XGBModel where
  quantile_alpha : ℚ
  num_boost_round : Nat
deriving Repr, DecidableEq

/-- First index attaining the minimum of a column, matching the pandas
argmin convention of returning the earliest minimizer. -/
def argminQ : List ℚ → Nat
  | [] => 0
  | x :: xs =>
    let r := argminQ xs
    match xs[r]? with
    | some y => if y < x then r + 1 else 0
    | none => 0

/-- Embedding of SalaryForecaster._analyze_cv_results: fail when the metric
column is absent, otherwise return argmin plus one and the minimum value. -/
def analyze_cv_results (cv : CVResults) (metric_name : String) :
    Except String (Nat × ℚ) :=
  match dictLookup metric_name cv.cols with
  | none => .error ("Metric " ++ metric_name ++ " not found in CV results columns")
  | some col =>
    match col with
    | [] => .error "attempt to get argmin of an empty sequence"
    | x :: xs => .ok (argminQ (x :: xs) + 1, (x :: xs).getD (argminQ (x :: xs)) 0)

/-- The (target, quantile) pairs in training order: the target loop with
the quantile loop nested inside. -/
def train_pairs (targets : List String) (quantiles : List ℚ) :
    List (String × ℚ) :=
  targets.flatMap (fun t => quantiles.map (fun q => (t, q)))

/-- The body of the training loop threaded over the remaining pairs: run
cross-validation analysis, abort with the raised error when it fails, else
refit with the selected round count and store the refit model under the
pair key.  The returned pair is the final state of self.models and the
escaped exception, if any. -/
def trainLoop (cv : String → ℚ → CVResults)
    (models : List (String × XGBModel)) :
    List (String × ℚ) → List (String × XGBModel) × Option String
  | [] => (models, none)
  | (t, q) :: rest =>
    match analyze_cv_results (cv t q) "test-quantile-mean" with
    | .error e => (models, some e)
    | .ok (best_round, _) =>
      trainLoop cv
        (dictInsert models (modelNameOf t q)
          { quantile_alpha := q, num_boost_round := best_round }) rest

/-- Embedding of SalaryForecaster.train on a freshly constructed instance
(whose models dictionary is empty). -/
def train (targets : List String) (quantiles : List ℚ)
    (cv : String → ℚ → CVResults) :
    List (String × XGBModel) × Option String :=
  trainLoop cv [] (train_pairs targets quantiles)

/-- The body of the quantile loop of SalaryForecaster.predict: look the
pair key up in the model bank; only a present model contributes a labelled
prediction to the per-target dictionary. -/
def predictStep (models : List (String × XGBModel)) (predictOne : XGBModel → ℚ)
    (target : String) (target_res : List (String × ℚ)) (q : ℚ) :
    List (String × ℚ) :=
  match dictLookup (modelNameOf target q) models with
  | some m => dictInsert target_res (quantileLabel q) (predictOne m)
  | none => target_res

/-- Embedding of SalaryForecaster.predict: for each configured target run
the quantile loop over the bank; every configured target appears in the
result.  The booster call is abstracted as predictOne since the claims
quantify over all of them. -/
def predict (targets : List String) (quantiles : List ℚ)
    (models : List (String × XGBModel)) (predictOne : XGBModel → ℚ) :
    List (String × List (String × ℚ)) :=
  targets.map (fun target =>
    (target, quantiles.foldl (predictStep models predictOne target) []))

/-- Cross-validation table used by the witness runs: a single metric
column whose minimum sits at position one. -/
def cvGood : String → ℚ → CVResults :=
  fun _ _ => { cols := [("test-quantile-mean", [5, 3, 4])] }

/-- Cross-validation tables for the partial-bank counterexample: the
metric column is present for target A and absent for target B. -/
def cvLate : String → ℚ → CVResults :=
  fun t _ =>
    if t = "A" then { cols := [("test-quantile-mean", [1])] }
    else { cols := [] }

/-- Cross-validation table with no columns at all. -/
def cvNone : String → ℚ → CVResults := fun _ _ => { cols := [] }

/-! ## Feature encoders (xgboost/preprocessing.py and model/preprocessing.py) -/

/-- Embedding of RankedCategoryEncoder.transform: map each value through
the name-to-rank table, filling absent values with the -1 sentinel and
casting to integer. -/
def RankedCategoryEncoder.transform (mapping : List (String × Int))
    (X : List String) : List Int :=
  X.map (fun v => (dictLookup v mapping).getD (-1))

/-- Age in years of a record dated d (in days) relative to the reference
date refDays, clipped below at zero; dividing the day difference by 365.25
is multiplying by 4/1461. -/
def ageYears (refDays d : Int) : ℚ :=
  max 0 (((refDays - d : Int) : ℚ) * 4 / 1461)

/-- The recency weight 1/(1 + age)^k computed by SampleWeighter. -/
noncomputable def weightOf (k : ℝ) (refDays d : Int) : ℝ :=
  1 / ((1 + (ageYears refDays d : ℝ)) ^ k)

/-- Embedding of the xgboost SampleWeighter.transform on a column parsed
with coercion, where none stands for an unparseable entry (NaT): a column
with no parseable entry falls back to the uniform weight 1.0; otherwise
every parseable entry gets the recency weight and an unparseable entry
propagates as a missing value. -/
noncomputable def SampleWeighter.transform (k : ℝ) (refDays : Int)
    (dates : List (Option Int)) : List (Option ℝ) :=
  if dates.all (fun d => d.isNone) then dates.map (fun _ => some 1)
  else dates.map (fun od => od.map (fun d => weightOf k refDays d))

/-- Embedding of the model/preprocessing SampleWeighter.transform: parsing
is strict (no coercion), so a column with any unparseable entry raises;
otherwise the same recency weights are produced. -/
noncomputable def SampleWeighterModel.transform (k : ℝ) (refDays : Int)
    (dates : List (Option Int)) : Except String (List ℝ) :=
  if dates.all (fun d => d.isSome) then
    .ok (dates.map (fun od =>
      match od with
      | some d => weightOf k refDays d
      | none => 0))
  else .error "Unknown datetime string format"

/-- The worker closure always tags its return pair with its own index. -/
lemma predictSingle_fst {φ α : Type} (predict : φ → Except String α)
    (index : Nat) (features : φ) : (predictSingle predict index features).1 = index := by
  unfold predictSingle
  cases predict features <;> rfl

/-- Writing a pair tagged with its own index preserves the invariant. -/
lemma Indexed.set {α : Type} {rs : List (Option (Nat × BatchOutcome α))}
    (hrs : Indexed rs) (idx : Nat) (q : Nat × BatchOutcome α) (hq : q.1 = idx) :
    Indexed (rs.set idx (some q)) := by
  intro i h p hp
  by_cases hii : idx = i
  · subst hii
    rw [List.getElem_set_self h] at hp
    cases hp
    exact hq
  · rw [List.getElem_set_ne hii] at hp
    exact hrs i (by simpa using h) p hp

/-- Slot-index discipline is preserved by the collection loop. -/
lemma collectCompleted_indexed {φ α : Type} (predict : φ → Except String α)
    (featuresList : List φ) (completionOrder : List Nat)
    (results : List (Option (Nat × BatchOutcome α))) (hres : Indexed results) :
    Indexed (collectCompleted predict featuresList completionOrder results) := by
  induction completionOrder generalizing results with
  | nil => simpa [collectCompleted] using hres
  | cons idx rest ih =>
    simp only [collectCompleted, List.foldl_cons] at *
    refine ih _ ?_
    cases featuresList[idx]? with
    | none => exact hres
    | some f => exact hres.set idx _ (predictSingle_fst predict idx f)

/-- Slot-index discipline is preserved by the timeout sweep. -/
lemma timeoutSweep_indexed {α : Type} (n : Nat) (done : Nat → Bool)
    (results : List (Option (Nat × BatchOutcome α))) (hres : Indexed results) :
    Indexed (timeoutSweep n done results) := by
  unfold timeoutSweep
  generalize List.range n = idxs
  induction idxs generalizing results with
  | nil => simpa using hres
  | cons idx rest ih =>
    simp only [List.foldl_cons]
    refine ih _ ?_
    cases done idx with
    | true => simpa using hres
    | false => simpa using hres.set idx _ rfl

/-- The length of the results array is unchanged by the collection loop. -/
lemma collectCompleted_length {φ α : Type} (predict : φ → Except String α)
    (featuresList : List φ) (completionOrder : List Nat)
    (results : List (Option (Nat × BatchOutcome α))) :
    (collectCompleted predict featuresList completionOrder results).length
      = results.length := by
  induction completionOrder generalizing results with
  | nil => simp [collectCompleted]
  | cons idx rest ih =>
    simp only [collectCompleted, List.foldl_cons] at *
    rw [ih]
    cases featuresList[idx]? with
    | none => rfl
    | some f => simp

/-- The length of the results array is unchanged by the timeout sweep. -/
lemma timeoutSweep_length {α : Type} (n : Nat) (done : Nat → Bool)
    (results : List (Option (Nat × BatchOutcome α))) :
    (timeoutSweep n done results).length = results.length := by
  unfold timeoutSweep
  generalize List.range n = idxs
  induction idxs generalizing results with
  | nil => simp
  | cons idx rest ih =>
    simp only [List.foldl_cons]
    rw [ih]
    cases done idx with
    | true => rfl
    | false => simp

/-- Finalization keeps the length. -/
lemma finalizeResults_length {α : Type}
    (results : List (Option (Nat × BatchOutcome α))) :
    (finalizeResults results).length = results.length := by
  simp [finalizeResults]

/-- After finalization, the pair at position i carries index i, provided
every written slot respected the index discipline. -/
lemma finalizeResults_fst {α : Type}
    (results : List (Option (Nat × BatchOutcome α)))
    (hres : Indexed results)
    (i : Nat) (h : i < (finalizeResults results).length) :
    (finalizeResults results)[i].1 = i := by
  have hlen : i < results.length := by simpa [finalizeResults_length] using h
  simp only [finalizeResults]
  rw [List.getElem_zipWith]
  cases hp : results[i] with
  | none => simp
  | some p => simpa [hp] using hres i hlen p hp

/-- The collection loop is a writeFold with writes determined by the
features list and the predictor. -/
lemma collectCompleted_eq_writeFold {φ α : Type} (predict : φ → Except String α)
    (featuresList : List φ) (completionOrder : List Nat)
    (results : List (Option (Nat × BatchOutcome α))) :
    collectCompleted predict featuresList completionOrder results
      = writeFold (fun idx => (featuresList[idx]?).map
          (fun f => some (predictSingle predict idx f))) completionOrder results := by
  unfold collectCompleted writeFold
  congr 1
  funext acc idx
  cases h : featuresList[idx]? <;> simp [h]

/-- The timeout sweep is a writeFold writing a timeout error wherever the
future is not done. -/
lemma timeoutSweep_eq_writeFold {α : Type} (n : Nat) (done : Nat → Bool)
    (results : List (Option (Nat × BatchOutcome α))) :
    timeoutSweep n done results
      = writeFold (fun idx => if done idx then none
          else some (some ((idx,
            BatchOutcome.timeoutError ("Prediction timeout for item " ++ toString idx)) :
              Nat × BatchOutcome α)))
          (List.range n) results := by
  unfold timeoutSweep writeFold
  congr 1
  funext acc idx
  cases h : done idx <;> simp [h]

/-- writeFold keeps the array length. -/
lemma writeFold_length {β : Type} (g : Nat → Option β) (l : List Nat)
    (rs : List β) : (writeFold g l rs).length = rs.length := by
  induction l generalizing rs with
  | nil => rfl
  | cons idx rest ih =>
    simp only [writeFold, List.foldl_cons] at *
    rw [ih]
    cases g idx with
    | none => rfl
    | some v => simp

/-- A slot whose index is never written keeps its value. -/
lemma writeFold_getElem?_of_none {β : Type} (g : Nat → Option β) (l : List Nat)
    (rs : List β) (i : Nat) (hg : g i = none) :
    (writeFold g l rs)[i]? = rs[i]? := by
  induction l generalizing rs with
  | nil => rfl
  | cons idx rest ih =>
    simp only [writeFold, List.foldl_cons] at *
    rw [ih]
    cases hgi : g idx with
    | none => rfl
    | some v =>
      have hne : idx ≠ i := by
        intro h
        rw [h, hg] at hgi
        exact Option.noConfusion hgi
      simp [List.getElem?_set_ne hne]

/-- A slot that is written, or already holds its index-determined value,
holds that value after the fold. -/
lemma writeFold_getElem?_of_write {β : Type} (g : Nat → Option β) (l : List Nat)
    (rs : List β) (i : Nat) (v : β) (hg : g i = some v) (hlen : i < rs.length)
    (hbase : rs[i]? = some v ∨ i ∈ l) :
    (writeFold g l rs)[i]? = some v := by
  induction l generalizing rs with
  | nil =>
    rcases hbase with hbase | hbase
    · exact hbase
    · exact absurd hbase (List.not_mem_nil i)
  | cons idx rest ih =>
    simp only [writeFold, List.foldl_cons] at *
    by_cases hii : idx = i
    · subst hii
      rw [hg]
      refine ih _ (by simpa using hlen) (Or.inl ?_)
      simp [List.getElem?_set, hlen]
    · cases hgi : g idx with
      | none =>
        refine ih _ hlen ?_
        rcases hbase with hbase | hbase
        · exact Or.inl hbase
        · rcases List.mem_cons.mp hbase with hbase | hbase
          · exact absurd hbase.symm hii
          · exact Or.inr hbase
      | some w =>
        refine ih _ (by simpa using hlen) ?_
        rcases hbase with hbase | hbase
        · exact Or.inl (by rw [List.getElem?_set_ne hii]; exact hbase)
        · rcases List.mem_cons.mp hbase with hbase | hbase
          · exact absurd hbase.symm hii
          · exact Or.inr hbase

/-- Two writeFolds whose write functions agree away from a distinguished
index i, started from arrays of equal length agreeing away from i, agree
away from i. -/
lemma writeFold_congr_off {β : Type} (g₁ g₂ : Nat → Option β) (l : List Nat)
    (i : Nat) (hg : ∀ idx, idx ≠ i → g₁ idx = g₂ idx)
    (rs₁ rs₂ : List β) (hlen : rs₁.length = rs₂.length)
    (hoff : ∀ j, j ≠ i → rs₁[j]? = rs₂[j]?) :
    ∀ j, j ≠ i → (writeFold g₁ l rs₁)[j]? = (writeFold g₂ l rs₂)[j]? := by
  induction l generalizing rs₁ rs₂ with
  | nil => exact hoff
  | cons idx rest ih =>
    simp only [writeFold, List.foldl_cons] at *
    by_cases hii : idx = i
    · subst hii
      refine ih _ _ ?_ ?_
      · cases g₁ idx <;> cases g₂ idx <;> simp [hlen]
      · intro j hj
        have hij : idx ≠ j := fun h => hj h.symm
        cases g₁ idx <;> cases g₂ idx <;>
          simp [List.getElem?_set_ne hij, hoff j hj]
    · rw [hg idx hii]
      refine ih _ _ ?_ ?_
      · cases g₂ idx <;> simp [hlen]
      · intro j hj
        cases g₂ idx with
        | none => exact hoff j hj
        | some v =>
          by_cases hij : idx = j
          · subst hij
            simp [List.getElem?_set, hlen, hoff idx hj]
          · simp [List.getElem?_set_ne hij, hoff j hj]

/-- Finalization viewed slotwise: a written slot surfaces its pair, an
unwritten slot becomes the not-completed error for its position. -/
lemma finalizeResults_getElem? {α : Type}
    (results : List (Option (Nat × BatchOutcome α))) (j : Nat) :
    (finalizeResults results)[j]?
      = (results[j]?).map (fun r =>
          match r with
          | some p => p
          | none => (j, BatchOutcome.notCompleted
              ("Prediction not completed for item " ++ toString j))) := by
  unfold finalizeResults
  by_cases hj : j < results.length
  · rw [List.getElem?_eq_getElem (by simpa using hj),
      List.getElem?_eq_getElem hj, List.getElem_zipWith]
    simp
  · rw [List.getElem?_eq_none (by simpa using Nat.le_of_not_lt hj),
      List.getElem?_eq_none (by simpa using Nat.le_of_not_lt hj)]
    rfl

/-- The results array of the whole batch run keeps the input length. -/
lemma predict_batch_parallel_length {φ α : Type} (predict : φ → Except String α)
    (featuresList : List φ) (completionOrder : List Nat)
    (timeoutFires : Bool) (done : Nat → Bool) :
    (predict_batch_parallel predict featuresList completionOrder timeoutFires done).length
      = featuresList.length := by
  unfold predict_batch_parallel
  rw [finalizeResults_length]
  cases timeoutFires with
  | false => simp [collectCompleted_length]
  | true => simp [timeoutSweep_length, collectCompleted_length]

/-- Fresh results arrays obviously satisfy the slot-index discipline. -/
lemma indexed_replicate {α : Type} (n : Nat) :
    Indexed (List.replicate n (none : Option (Nat × BatchOutcome α))) := by
  intro i h p hp
  simp at hp

/-- The array produced just before finalization satisfies the slot-index
discipline. -/
lemma results2_indexed {φ α : Type} (predict : φ → Except String α)
    (featuresList : List φ) (completionOrder : List Nat)
    (timeoutFires : Bool) (done : Nat → Bool) :
    Indexed (if timeoutFires then
        timeoutSweep featuresList.length done
          (collectCompleted predict featuresList completionOrder
            (List.replicate featuresList.length none))
      else collectCompleted predict featuresList completionOrder
        (List.replicate featuresList.length none)) := by
  have h1 := collectCompleted_indexed predict featuresList completionOrder _
    (indexed_replicate (α := α) featuresList.length)
  cases timeoutFires with
  | false => simpa using h1
  | true => simpa using timeoutSweep_indexed featuresList.length done _ h1

/-- C1: predict_batch_parallel returns, for every model (here: every
predictor), every input list and every completion schedule, a list of
exactly n index-result pairs where the pair at position i carries index i;
hence its indices are exactly 0..n-1, each occurring once, in original
input order regardless of completion order. -/
theorem predict_batch_parallel_ordered_indices {φ α : Type}
    (predict : φ → Except String α) (featuresList : List φ)
    (completionOrder : List Nat) (timeoutFires : Bool) (done : Nat → Bool) :
    (predict_batch_parallel predict featuresList completionOrder timeoutFires done).map
        Prod.fst = List.range featuresList.length := by
  apply List.ext_getElem
  · rw [List.length_map, predict_batch_parallel_length, List.length_range]
  · intro i h1 h2
    rw [List.getElem_map, List.getElem_range]
    have hind := results2_indexed predict featuresList completionOrder timeoutFires done
    exact finalizeResults_fst _ hind i (by
      simpa [predict_batch_parallel] using (by simpa using h1 : i < _))

/-- C4: a prediction exception at one item is caught at the worker boundary
and becomes exactly that item error result; results at every other index do
not depend on the behaviour of the predictor at the faulty item; the list
keeps one outcome per input index; and when the global timeout fires, every
item whose future was not done is turned into an explicit timeout error. -/
theorem predict_batch_parallel_fault_isolation {φ α : Type}
    (p₁ p₂ : φ → Except String α) (featuresList : List φ)
    (completionOrder : List Nat) (timeoutFires : Bool) (done : Nat → Bool)
    (i : Nat) (e : String) (hi : i < featuresList.length)
    (hmem : i ∈ completionOrder)
    (herr : p₁ featuresList[i] = .error e)
    (hdone : timeoutFires = true → done i = true)
    (hagree : ∀ j (hj : j < featuresList.length), j ≠ i →
      p₁ featuresList[j] = p₂ featuresList[j]) :
    (predict_batch_parallel p₁ featuresList completionOrder timeoutFires done)[i]?
        = some (i, BatchOutcome.errResult e)
    ∧ (∀ j, j ≠ i →
        (predict_batch_parallel p₁ featuresList completionOrder timeoutFires done)[j]?
          = (predict_batch_parallel p₂ featuresList completionOrder timeoutFires done)[j]?)
    ∧ (predict_batch_parallel p₁ featuresList completionOrder timeoutFires done).length
        = featuresList.length
    ∧ (∀ m, m < featuresList.length → done m = false → timeoutFires = true →
        (predict_batch_parallel p₁ featuresList completionOrder timeoutFires done)[m]?
          = some (m, BatchOutcome.timeoutError
              ("Prediction timeout for item " ++ toString m))) := by
  have hn : featuresList.length = featuresList.length := rfl
  -- slotwise description of the collection pass for p₁ at the faulty index
  have hg₁ : (fun idx => (featuresList[idx]?).map
      (fun f => some (predictSingle p₁ idx f))) i
        = some (some (i, BatchOutcome.errResult e)) := by
    show (featuresList[i]?).map (fun f => some (predictSingle p₁ i f))
        = some (some (i, BatchOutcome.errResult e))
    rw [List.getElem?_eq_getElem hi]
    simp [predictSingle, herr]
  have hr1len : ∀ (p : φ → Except String α),
      (collectCompleted p featuresList completionOrder
        (List.replicate featuresList.length none)).length = featuresList.length := by
    intro p
    rw [collectCompleted_length]
    simp
  have hr1i : (collectCompleted p₁ featuresList completionOrder
      (List.replicate featuresList.length none))[i]?
        = some (some (i, BatchOutcome.errResult e)) := by
    rw [collectCompleted_eq_writeFold]
    exact writeFold_getElem?_of_write _ _ _ i _ hg₁ (by simpa using hi) (Or.inr hmem)
  have hr2i : ∀ tf : Bool, (tf = true → done i = true) →
      ((if tf then
          timeoutSweep featuresList.length done
            (collectCompleted p₁ featuresList completionOrder
              (List.replicate featuresList.length none))
        else collectCompleted p₁ featuresList completionOrder
          (List.replicate featuresList.length none)))[i]?
        = some (some (i, BatchOutcome.errResult e)) := by
    intro tf htf
    cases tf with
    | false => simpa using hr1i
    | true =>
      rw [if_pos rfl, timeoutSweep_eq_writeFold]
      rw [writeFold_getElem?_of_none _ _ _ i (by simp [htf rfl])]
      exact hr1i
  refine ⟨?_, ?_, ?_, ?_⟩
  · -- the faulty item carries its captured exception
    show (finalizeResults _)[i]? = _
    rw [finalizeResults_getElem?, hr2i timeoutFires hdone]
    rfl
  · -- sibling items do not depend on the predictor at the faulty item
    intro j hj
    show (finalizeResults _)[j]? = (finalizeResults _)[j]?
    rw [finalizeResults_getElem?, finalizeResults_getElem?]
    have hoff : ∀ j, j ≠ i →
        ((if timeoutFires then
            timeoutSweep featuresList.length done
              (collectCompleted p₁ featuresList completionOrder
                (List.replicate featuresList.length none))
          else collectCompleted p₁ featuresList completionOrder
            (List.replicate featuresList.length none)))[j]?
          = ((if timeoutFires then
              timeoutSweep featuresList.length done
                (collectCompleted p₂ featuresList completionOrder
                  (List.replicate featuresList.length none))
            else collectCompleted p₂ featuresList completionOrder
              (List.replicate featuresList.length none)))[j]? := by
      have hcoll : ∀ j, j ≠ i →
          (collectCompleted p₁ featuresList completionOrder
            (List.replicate featuresList.length none))[j]?
            = (collectCompleted p₂ featuresList completionOrder
              (List.replicate featuresList.length none))[j]? := by
        rw [collectCompleted_eq_writeFold, collectCompleted_eq_writeFold]
        refine writeFold_congr_off _ _ _ i ?_ _ _ rfl (fun _ _ => rfl)
        intro idx hidx
        cases hfl : featuresList[idx]? with
        | none => rfl
        | some f =>
          have hlt : idx < featuresList.length := by
            by_contra hcon
            rw [List.getElem?_eq_none (Nat.le_of_not_lt hcon)] at hfl
            exact Option.noConfusion hfl
          have hfeq : f = featuresList[idx] := by
            have h2 := List.getElem?_eq_getElem hlt
            rw [hfl] at h2
            exact Option.some.inj h2
          subst hfeq
          simp [predictSingle, hagree idx hlt hidx]
      cases timeoutFires with
      | false => simpa using hcoll
      | true =>
        intro j hj
        rw [if_pos rfl, if_pos rfl, timeoutSweep_eq_writeFold, timeoutSweep_eq_writeFold]
        exact writeFold_congr_off _ _ _ i (fun _ _ => rfl) _ _
          (by rw [hr1len p₁, hr1len p₂]) hcoll j hj
    rw [hoff j hj]
  · exact predict_batch_parallel_length p₁ featuresList completionOrder timeoutFires done
  · -- unresolved items become explicit timeout errors
    intro m hm hdm htf
    subst htf
    show (finalizeResults _)[m]? = _
    rw [finalizeResults_getElem?]
    rw [if_pos rfl, timeoutSweep_eq_writeFold]
    rw [writeFold_getElem?_of_write _ _ _ m
      (some (m, BatchOutcome.timeoutError ("Prediction timeout for item " ++ toString m)))
      (by simp [hdm]) (by rw [hr1len p₁]; exact hm)
      (Or.inr (List.mem_range.mpr hm))]
    rfl

/-- Witness for the fault-isolation theorem at a concrete three-item batch:
item 1 raises, items 0 and 2 complete, the timeout fires with item 2 not
done. -/
theorem predict_batch_parallel_fault_isolation_witness :
    (predict_batch_parallel
        (fun x : Nat => if x = 11 then Except.error "boom" else Except.ok x)
        [10, 11, 12] [1, 0] true (fun j => decide (j ≤ 1)))[1]?
      = some (1, BatchOutcome.errResult "boom") := by
  have h := predict_batch_parallel_fault_isolation
    (fun x : Nat => if x = 11 then Except.error "boom" else Except.ok x)
    (fun x : Nat => Except.ok x) [10, 11, 12] [1, 0] true (fun j => decide (j ≤ 1))
    1 "boom" (by decide) (by decide) rfl (fun _ => rfl) ?_
  · exact h.1
  · intro j hj hne
    simp only [List.length_cons, List.length_nil] at hj
    interval_cases j
    · rfl
    · exact absurd rfl hne
    · rfl

/-- C5: validate_input_features accumulates every applicable error without
short-circuiting: one error per missing feature group, one per supplied
ranked value outside the encoder vocabulary, one per supplied numerical
value that is not numeric-coercible, and is_valid holds exactly when the
accumulated error list is empty. -/
theorem validate_input_features_accumulates (floatParses : String → Bool)
    (model : Forecaster) (features : List (String × PyValue)) :
    ((validate_input_features floatParses model features).is_valid = true
        ↔ (validate_input_features floatParses model features).errors = [])
    ∧ ((validate_input_features floatParses model features).is_valid = true
        ↔ (missingOf (get_model_schema model).ranked_features (features.map Prod.fst) = []
          ∧ missingOf (get_model_schema model).proximity_features (features.map Prod.fst) = []
          ∧ missingOf (get_model_schema model).numerical_features (features.map Prod.fst) = []
          ∧ badRankedPairs model features = []
          ∧ badNumericalPairs floatParses model features = []))
    ∧ (validate_input_features floatParses model features).errors.length
        = (if missingOf (get_model_schema model).ranked_features (features.map Prod.fst) = []
            then 0 else 1)
          + (if missingOf (get_model_schema model).proximity_features (features.map Prod.fst) = []
            then 0 else 1)
          + (if missingOf (get_model_schema model).numerical_features (features.map Prod.fst) = []
            then 0 else 1)
          + (badRankedPairs model features).length
          + (badNumericalPairs floatParses model features).length
    ∧ (missingOf (get_model_schema model).ranked_features (features.map Prod.fst) ≠ [] →
        VErr.missingRanked (missingOf (get_model_schema model).ranked_features
            (features.map Prod.fst))
          ∈ (validate_input_features floatParses model features).errors)
    ∧ (missingOf (get_model_schema model).proximity_features (features.map Prod.fst) ≠ [] →
        VErr.missingProximity (missingOf (get_model_schema model).proximity_features
            (features.map Prod.fst))
          ∈ (validate_input_features floatParses model features).errors)
    ∧ (missingOf (get_model_schema model).numerical_features (features.map Prod.fst) ≠ [] →
        VErr.missingNumerical (missingOf (get_model_schema model).numerical_features
            (features.map Prod.fst))
          ∈ (validate_input_features floatParses model features).errors)
    ∧ (∀ cv ∈ badRankedPairs model features,
        VErr.invalidRanked cv.1 cv.2
          ∈ (validate_input_features floatParses model features).errors)
    ∧ (∀ cv ∈ badNumericalPairs floatParses model features,
        VErr.invalidNumerical cv.1 cv.2
          ∈ (validate_input_features floatParses model features).errors) := by
  set mr := missingOf (get_model_schema model).ranked_features (features.map Prod.fst) with hmr
  set mp := missingOf (get_model_schema model).proximity_features (features.map Prod.fst)
    with hmp
  set mn := missingOf (get_model_schema model).numerical_features (features.map Prod.fst)
    with hmn
  set br := badRankedPairs model features with hbr
  set bn := badNumericalPairs floatParses model features with hbn
  have herr : (validate_input_features floatParses model features).errors
      = (if mr = [] then [] else [VErr.missingRanked mr])
        ++ (if mp = [] then [] else [VErr.missingProximity mp])
        ++ (if mn = [] then [] else [VErr.missingNumerical mn])
        ++ br.map (fun cv => VErr.invalidRanked cv.1 cv.2)
        ++ bn.map (fun cv => VErr.invalidNumerical cv.1 cv.2) := rfl
  have hval : (validate_input_features floatParses model features).is_valid
      = (validate_input_features floatParses model features).errors.isEmpty := rfl
  refine ⟨⟨fun h => List.isEmpty_iff.mp (hval ▸ h), fun h => by rw [hval, h]; rfl⟩,
    ?_, ?_, ?_, ?_, ?_, ?_, ?_⟩
  · rw [hval, herr]
    constructor
    · intro h
      simp only [List.isEmpty_iff, List.append_eq_nil, List.map_eq_nil_iff] at h
      obtain ⟨⟨⟨⟨h1, h2⟩, h3⟩, h4⟩, h5⟩ := h
      refine ⟨?_, ?_, ?_, h4, h5⟩
      · by_contra hc
        rw [if_neg hc] at h1
        exact List.noConfusion h1
      · by_contra hc
        rw [if_neg hc] at h2
        exact List.noConfusion h2
      · by_contra hc
        rw [if_neg hc] at h3
        exact List.noConfusion h3
    · rintro ⟨h1, h2, h3, h4, h5⟩
      simp [h1, h2, h3, h4, h5]
  · rw [herr]
    split_ifs <;> simp [List.length_append] <;> omega
  · intro h
    rw [herr, if_neg h]
    exact List.mem_append.mpr (Or.inl (List.mem_append.mpr (Or.inl
      (List.mem_append.mpr (Or.inl (List.mem_append.mpr (Or.inl
        (List.mem_singleton.mpr rfl))))))))
  · intro h
    rw [herr, if_neg h]
    exact List.mem_append.mpr (Or.inl (List.mem_append.mpr (Or.inl
      (List.mem_append.mpr (Or.inl (List.mem_append.mpr (Or.inr
        (List.mem_singleton.mpr rfl))))))))
  · intro h
    rw [herr, if_neg h]
    exact List.mem_append.mpr (Or.inl (List.mem_append.mpr (Or.inl
      (List.mem_append.mpr (Or.inr (List.mem_singleton.mpr rfl))))))
  · intro cv hcv
    rw [herr]
    exact List.mem_append.mpr (Or.inl (List.mem_append.mpr (Or.inr
      (List.mem_map.mpr ⟨cv, hcv, rfl⟩))))
  · intro cv hcv
    rw [herr]
    exact List.mem_append.mpr (Or.inr (List.mem_map.mpr ⟨cv, hcv, rfl⟩))

/-- Witness for the validation theorem at a concrete model and input with
one missing proximity feature, one out-of-vocabulary ranked value and one
non-coercible numerical value. -/
theorem validate_input_features_accumulates_witness :
    VErr.missingProximity ["Location"]
      ∈ (validate_input_features (fun _ => false)
          { ranked_encoders := [("Level", { mapping := [("E3", 0), ("E4", 1)] })]
            proximity_encoders := [("Location", ())]
            feature_names := ["Level", "Location", "Years"]
            targets := []
            quantiles := [] }
          [("Level", PyValue.vStr "E9"), ("Years", PyValue.vStr "abc")]).errors := by
  have h := validate_input_features_accumulates (fun _ => false)
    { ranked_encoders := [("Level", { mapping := [("E3", 0), ("E4", 1)] })]
      proximity_encoders := [("Location", ())]
      feature_names := ["Level", "Location", "Years"]
      targets := []
      quantiles := [] }
    [("Level", PyValue.vStr "E9"), ("Years", PyValue.vStr "abc")]
  exact h.2.2.2.2.1 (by decide)

/-- A nonempty column has its argmin inside the column. -/
lemma argminQ_lt_length (l : List ℚ) (hl : l ≠ []) : argminQ l < l.length := by
  cases l with
  | nil => exact absurd rfl hl
  | cons x xs =>
    simp only [argminQ]
    cases hx : xs[argminQ xs]? with
    | none => simp
    | some y =>
      have hr : argminQ xs < xs.length := by
        by_contra hc
        rw [List.getElem?_eq_none (Nat.le_of_not_lt hc)] at hx
        exact Option.noConfusion hx
      by_cases hyx : y < x
      · simpa [hyx] using Nat.succ_lt_succ hr
      · simp [hyx]

/-- The column value at the argmin is a minimizer of the column. -/
lemma argminQ_min : ∀ (l : List ℚ) (j : Nat), j < l.length →
    l.getD (argminQ l) 0 ≤ l.getD j 0 := by
  intro l
  induction l with
  | nil =>
    intro j hj
    simp at hj
  | cons x xs ih =>
    intro j hj
    simp only [argminQ]
    cases hx : xs[argminQ xs]? with
    | none =>
      have hxs : xs = [] := by
        by_contra hc
        rw [List.getElem?_eq_getElem (argminQ_lt_length xs hc)] at hx
        exact Option.noConfusion hx
      subst hxs
      simp only [List.length_cons, List.length_nil] at hj
      interval_cases j
      simp
    | some y =>
      have hr : argminQ xs < xs.length := by
        by_contra hc
        rw [List.getElem?_eq_none (Nat.le_of_not_lt hc)] at hx
        exact Option.noConfusion hx
      have hy : xs.getD (argminQ xs) 0 = y := by
        rw [List.getD_eq_getElem?_getD, hx]
        rfl
      by_cases hyx : y < x
      · simp only [hyx, if_true, List.getD_cons_succ]
        cases j with
        | zero =>
          simp only [List.getD_cons_zero]
          exact hy ▸ le_of_lt hyx
        | succ j' =>
          rw [List.getD_cons_succ]
          exact ih j' (by simpa using hj)
      · simp only [hyx, if_false, List.getD_cons_zero]
        cases j with
        | zero => simp
        | succ j' =>
          rw [List.getD_cons_succ]
          have hxy : x ≤ y := le_of_not_lt hyx
          exact le_trans hxy (hy ▸ ih j' (by simpa using hj))

/-- Inserting a binding makes it visible to lookup of its key. -/
lemma dictLookup_dictInsert_self {β : Type} (ms : List (String × β))
    (name : String) (b : β) :
    dictLookup name (dictInsert ms name b) = some b := by
  unfold dictInsert
  by_cases hany : ms.any (fun p => p.1 = name) = true
  · rw [if_pos hany]
    induction ms with
    | nil => simp at hany
    | cons p rest ih =>
      by_cases hp : p.1 = name
      · rw [List.map_cons, if_pos hp, dictLookup, if_pos rfl]
      · have hrest : rest.any (fun p => p.1 = name) = true := by
          simp only [List.any_cons, Bool.or_eq_true, decide_eq_true_eq] at hany
          rcases hany with h | h
          · exact absurd h hp
          · exact h
        rw [List.map_cons, if_neg hp, dictLookup, if_neg hp]
        exact ih hrest
  · rw [if_neg hany]
    rw [Bool.not_eq_true] at hany
    induction ms with
    | nil => rw [List.nil_append, dictLookup, if_pos rfl]
    | cons p rest ih =>
      simp only [List.any_cons, Bool.or_eq_false_iff, decide_eq_false_iff_not] at hany
      rw [List.cons_append, dictLookup, if_neg hany.1]
      exact ih (by simp [hany.2])

/-- Inserting a binding leaves lookups of other keys unchanged. -/
lemma dictLookup_dictInsert_ne {β : Type} (ms : List (String × β))
    (name key : String) (b : β) (h : key ≠ name) :
    dictLookup key (dictInsert ms name b) = dictLookup key ms := by
  unfold dictInsert
  by_cases hany : ms.any (fun p => p.1 = name) = true
  · rw [if_pos hany]
    clear hany
    induction ms with
    | nil => rfl
    | cons p rest ih =>
      by_cases hp : p.1 = name
      · rw [List.map_cons, if_pos hp]
        show dictLookup key ((name, b) :: _) = dictLookup key (p :: rest)
        rw [dictLookup, if_neg (fun hc => h hc.symm), dictLookup,
          if_neg (fun hc => h (hp ▸ hc).symm)]
        exact ih
      · rw [List.map_cons, if_neg hp]
        show dictLookup key (p :: _) = dictLookup key (p :: rest)
        rw [dictLookup, dictLookup]
        by_cases hpk : p.1 = key
        · rw [if_pos hpk, if_pos hpk]
        · rw [if_neg hpk, if_neg hpk]
          exact ih
  · rw [if_neg hany]
    clear hany
    induction ms with
    | nil =>
      rw [List.nil_append]
      show (if name = key then some b else dictLookup key []) = dictLookup key []
      rw [if_neg (fun hc => h hc.symm)]
    | cons p rest ih =>
      rw [List.cons_append, dictLookup, dictLookup]
      by_cases hpk : p.1 = key
      · rw [if_pos hpk, if_pos hpk]
      · rw [if_neg hpk, if_neg hpk]
        exact ih

/-- A key in the dictionary after an insertion was there before or is the
inserted key. -/
lemma mem_keys_dictInsert {β : Type} (ms : List (String × β))
    (name key : String) (b : β)
    (h : key ∈ (dictInsert ms name b).map Prod.fst) :
    key ∈ ms.map Prod.fst ∨ key = name := by
  unfold dictInsert at h
  by_cases hany : ms.any (fun p => p.1 = name) = true
  · rw [if_pos hany] at h
    rw [List.map_map] at h
    rcases List.mem_map.mp h with ⟨p, hp, hkey⟩
    by_cases hpn : p.1 = name
    · right
      simp only [Function.comp, if_pos hpn] at hkey
      exact hkey.symm
    · left
      simp only [Function.comp, if_neg hpn] at hkey
      exact List.mem_map.mpr ⟨p, hp, hkey⟩
  · rw [if_neg hany] at h
    rw [List.map_append] at h
    rcases List.mem_append.mp h with h | h
    · exact Or.inl h
    · right
      simpa using h

/-- Keys whose names are generated by none of the remaining pairs are
untouched by the rest of the training loop. -/
lemma trainLoop_lookup_of_notmem (cv : String → ℚ → CVResults) :
    ∀ (pairs : List (String × ℚ)) (ms : List (String × XGBModel)) (key : String),
      (∀ p ∈ pairs, modelNameOf p.1 p.2 ≠ key) →
      dictLookup key (trainLoop cv ms pairs).1 = dictLookup key ms := by
  intro pairs
  induction pairs with
  | nil =>
    intro ms key _
    rfl
  | cons p rest ih =>
    intro ms key hkey
    obtain ⟨t, q⟩ := p
    show dictLookup key (trainLoop cv ms ((t, q) :: rest)).1 = dictLookup key ms
    rw [trainLoop]
    cases analyze_cv_results (cv t q) "test-quantile-mean" with
    | error e => rfl
    | ok r =>
      obtain ⟨best_round, best_score⟩ := r
      rw [ih _ key (fun p hp => hkey p (List.mem_cons_of_mem _ hp))]
      exact dictLookup_dictInsert_ne _ _ _ _
        (fun hc => hkey (t, q) (List.mem_cons_self _ _) hc.symm)

/-- When the training loop runs to completion, every processed pair has a
successful cross-validation analysis, and the bank maps the pair key to
the refit model built with that analysis round count. -/
lemma trainLoop_success_lookup (cv : String → ℚ → CVResults) :
    ∀ (pairs : List (String × ℚ)) (ms : List (String × XGBModel)),
      (trainLoop cv ms pairs).2 = none →
      ((pairs.map (fun p => modelNameOf p.1 p.2)).Nodup) →
      ∀ t q, (t, q) ∈ pairs →
        ∃ br bs, analyze_cv_results (cv t q) "test-quantile-mean" = .ok (br, bs)
          ∧ dictLookup (modelNameOf t q) (trainLoop cv ms pairs).1
              = some { quantile_alpha := q, num_boost_round := br } := by
  intro pairs
  induction pairs with
  | nil =>
    intro ms _ _ t q hmem
    exact absurd hmem (List.not_mem_nil _)
  | cons p rest ih =>
    intro ms hsucc hnodup t q hmem
    obtain ⟨t0, q0⟩ := p
    rw [trainLoop] at hsucc ⊢
    cases hana : analyze_cv_results (cv t0 q0) "test-quantile-mean" with
    | error e =>
      rw [hana] at hsucc
      exact Option.noConfusion hsucc
    | ok r =>
      obtain ⟨br0, bs0⟩ := r
      rw [hana] at hsucc
      rw [List.map_cons, List.nodup_cons] at hnodup
      rcases List.mem_cons.mp hmem with hhd | htl
      · rw [Prod.mk.injEq] at hhd
        obtain ⟨rfl, rfl⟩ := hhd
        refine ⟨br0, bs0, hana, ?_⟩
        rw [trainLoop_lookup_of_notmem cv rest _ _ ?_]
        · exact dictLookup_dictInsert_self _ _ _
        · intro p hp hc
          exact hnodup.1 (hc ▸ List.mem_map.mpr ⟨p, hp, rfl⟩)
      · exact ih _ hsucc hnodup.2 t q htl

/-- Inversion of a successful cross-validation analysis: the metric column
is present and nonempty and the selected round is its argmin plus one. -/
lemma analyze_cv_results_ok (cv : CVResults) (metric_name : String)
    (br : Nat) (bs : ℚ)
    (h : analyze_cv_results cv metric_name = .ok (br, bs)) :
    ∃ col, dictLookup metric_name cv.cols = some col ∧ col ≠ []
      ∧ br = argminQ col + 1 ∧ bs = col.getD (argminQ col) 0 := by
  unfold analyze_cv_results at h
  cases hcol : dictLookup metric_name cv.cols with
  | none =>
    rw [hcol] at h
    exact Except.noConfusion h
  | some col =>
    rw [hcol] at h
    cases col with
    | nil => exact Except.noConfusion h
    | cons x xs =>
      have hinj := Except.ok.inj h
      rw [Prod.mk.injEq] at hinj
      exact ⟨x :: xs, rfl, List.cons_ne_nil x xs, hinj.1.symm, hinj.2.symm⟩

/-- C2: for every (target, quantile) pair of a training run that completes,
the bank holds, under the pair key, the model refit with the round count
equal to the position of the minimum of the cross-validated metric column
plus one; that position is inside the column and attains its minimum, and
the stored model is the refit (an xgb.train product), not a fold model of
the cross-validation run. -/
theorem train_selects_min_cv_round_and_refits
    (targets : List String) (quantiles : List ℚ) (cv : String → ℚ → CVResults)
    (hnodup : ((train_pairs targets quantiles).map
      (fun p => modelNameOf p.1 p.2)).Nodup)
    (hsucc : (train targets quantiles cv).2 = none)
    (t : String) (q : ℚ) (ht : t ∈ targets) (hq : q ∈ quantiles) :
    ∃ col, dictLookup "test-quantile-mean" (cv t q).cols = some col
      ∧ col ≠ []
      ∧ dictLookup (modelNameOf t q) (train targets quantiles cv).1
          = some { quantile_alpha := q, num_boost_round := argminQ col + 1 }
      ∧ argminQ col < col.length
      ∧ (∀ j, j < col.length → col.getD (argminQ col) 0 ≤ col.getD j 0) := by
  have hmem : (t, q) ∈ train_pairs targets quantiles := by
    unfold train_pairs
    exact List.mem_flatMap.mpr ⟨t, ht, List.mem_map.mpr ⟨q, hq, rfl⟩⟩
  obtain ⟨br, bs, hana, hlook⟩ :=
    trainLoop_success_lookup cv (train_pairs targets quantiles) [] hsucc hnodup t q hmem
  obtain ⟨col, hcol, hne, hbr, _⟩ := analyze_cv_results_ok _ _ _ _ hana
  subst hbr
  exact ⟨col, hcol, hne, hlook, argminQ_lt_length col hne,
    fun j hj => argminQ_min col j hj⟩

/-- The key and label of the maximal quantile, computed by rewriting since
rational multiplication is irreducible to the kernel. -/
lemma modelNameOf_one (t : String) : modelNameOf t 1 = t ++ "_p" ++ "100" := by
  unfold modelNameOf pyInt
  rw [one_mul]
  rw [if_pos (by norm_num : (0:ℚ) ≤ 100)]
  norm_num
  rfl

/-- Witness for the round-selection theorem: one target, the p100
quantile, a three-round column with minimum at the second round. -/
theorem train_selects_min_cv_round_and_refits_witness :
    dictLookup "Salary_p100" (train ["Salary"] [1] cvGood).1
      = some { quantile_alpha := 1, num_boost_round := 2 } := by
  obtain ⟨col, hcol, hne, hlook, hlt, hmin⟩ :=
    train_selects_min_cv_round_and_refits ["Salary"] [1] cvGood
      (by simp [train_pairs]) rfl "Salary" 1 (List.mem_singleton.mpr rfl)
      (List.mem_singleton.mpr rfl)
  have hcoleq : col = [5, 3, 4] := by
    have hcv : dictLookup "test-quantile-mean" (cvGood "Salary" 1).cols
        = some [5, 3, 4] := rfl
    rw [hcv] at hcol
    exact (Option.some.inj hcol).symm
  subst hcoleq
  rw [modelNameOf_one] at hlook
  have hround : argminQ [5, 3, 4] + 1 = 2 := by decide
  rw [hround] at hlook
  exact hlook

/-- C3 counterexample: with two configured targets where only the second
lacks the metric column, train raises the fatal error, yet the model bank
retains the model trained for the first target: a proper non-empty subset
of the two configured (target, quantile) models, so the state is not
unchanged on error. -/
theorem train_missing_metric_partial_bank_cex :
    ((train ["A", "B"] [1] cvLate).2).isSome = true
    ∧ (train ["A", "B"] [1] cvLate).1
        = [("A_p100", { quantile_alpha := 1, num_boost_round := 1 })]
    ∧ (train ["A", "B"] [1] cvLate).1.length = 1
    ∧ (train_pairs ["A", "B"] [1]).length = 2 := by
  have hstep : train ["A", "B"] [1] cvLate
      = ([(modelNameOf "A" 1, { quantile_alpha := 1, num_boost_round := 1 })],
         some ("Metric " ++ "test-quantile-mean"
           ++ " not found in CV results columns")) := rfl
  rw [hstep]
  refine ⟨rfl, ?_, rfl, rfl⟩
  rw [modelNameOf_one]
  rfl

/-- C3 amended, first half: training aborts at the first pair whose
cross-validation results lack the metric column, raising the error with
the bank exactly as constructed; when the failing pair is the first of
the run (in particular when the column is missing uniformly, the realistic
case since the column set does not depend on the pair), no model is stored
at all and no partial bank exists. -/
theorem train_aborts_on_missing_metric
    (targets : List String) (quantiles : List ℚ) (cv : String → ℚ → CVResults)
    (t : String) (q : ℚ) (rest : List (String × ℚ))
    (hpairs : train_pairs targets quantiles = (t, q) :: rest)
    (hmiss : dictLookup "test-quantile-mean" (cv t q).cols = none) :
    (train targets quantiles cv).1 = []
    ∧ (train targets quantiles cv).2
        = some ("Metric " ++ "test-quantile-mean"
            ++ " not found in CV results columns") := by
  have hana : analyze_cv_results (cv t q) "test-quantile-mean"
      = .error ("Metric " ++ "test-quantile-mean"
          ++ " not found in CV results columns") := by
    unfold analyze_cv_results
    rw [hmiss]
  unfold train
  rw [hpairs]
  simp only [trainLoop, hana]
  constructor <;> trivial

/-- Witness for the abort theorem: a single pair whose table lacks the
metric column leaves the bank empty and propagates the error. -/
theorem train_aborts_on_missing_metric_witness :
    (train ["A"] [1] cvNone).1 = []
    ∧ (train ["A"] [1] cvNone).2
        = some ("Metric " ++ "test-quantile-mean"
            ++ " not found in CV results columns") :=
  train_aborts_on_missing_metric ["A"] [1] cvNone "A" 1 [] rfl rfl

/-- Key membership after an insertion, both directions. -/
lemma mem_keys_dictInsert_iff {β : Type} (ms : List (String × β))
    (name key : String) (b : β) :
    key ∈ (dictInsert ms name b).map Prod.fst
      ↔ key ∈ ms.map Prod.fst ∨ key = name := by
  constructor
  · exact mem_keys_dictInsert ms name key b
  · intro h
    unfold dictInsert
    by_cases hany : ms.any (fun p => p.1 = name) = true
    · rw [if_pos hany, List.map_map]
      rcases h with h | h
      · rcases List.mem_map.mp h with ⟨p, hp, hkey⟩
        by_cases hpn : p.1 = name
        · refine List.mem_map.mpr ⟨p, hp, ?_⟩
          simp only [Function.comp, if_pos hpn]
          rw [← hkey, hpn]
        · refine List.mem_map.mpr ⟨p, hp, ?_⟩
          simp only [Function.comp, if_neg hpn]
          exact hkey
      · subst h
        rcases List.any_eq_true.mp hany with ⟨p, hp, hpn⟩
        rw [decide_eq_true_eq] at hpn
        refine List.mem_map.mpr ⟨p, hp, ?_⟩
        simp only [Function.comp, if_pos hpn]
    · rw [if_neg hany, List.map_append]
      rcases h with h | h
      · exact List.mem_append.mpr (Or.inl h)
      · exact List.mem_append.mpr (Or.inr (by simp [h]))

/-- Every key of the bank built by the training loop either came from the
initial bank or is the pair key of one of the processed pairs. -/
lemma trainLoop_keys (cv : String → ℚ → CVResults) :
    ∀ (pairs : List (String × ℚ)) (ms : List (String × XGBModel)) (key : String),
      key ∈ ((trainLoop cv ms pairs).1.map Prod.fst) →
      key ∈ ms.map Prod.fst ∨ ∃ p ∈ pairs, key = modelNameOf p.1 p.2 := by
  intro pairs
  induction pairs with
  | nil =>
    intro ms key h
    exact Or.inl h
  | cons p rest ih =>
    intro ms key h
    obtain ⟨t, q⟩ := p
    rw [trainLoop] at h
    cases hana : analyze_cv_results (cv t q) "test-quantile-mean" with
    | error e =>
      rw [hana] at h
      exact Or.inl h
    | ok r =>
      obtain ⟨br, bs⟩ := r
      rw [hana] at h
      rcases ih _ key h with h | ⟨p, hp, hkey⟩
      · rcases mem_keys_dictInsert _ _ _ _ h with h | h
        · exact Or.inl h
        · exact Or.inr ⟨(t, q), List.mem_cons_self _ _, h⟩
      · exact Or.inr ⟨p, List.mem_cons_of_mem _ hp, hkey⟩

/-- Reduction of the quantile-loop body when the pair key is absent. -/
lemma predictStep_none (models : List (String × XGBModel))
    (predictOne : XGBModel → ℚ) (target : String)
    (target_res : List (String × ℚ)) (q : ℚ)
    (hlk : dictLookup (modelNameOf target q) models = none) :
    predictStep models predictOne target target_res q = target_res := by
  unfold predictStep
  rw [hlk]

/-- Reduction of the quantile-loop body when the pair key is present. -/
lemma predictStep_some (models : List (String × XGBModel))
    (predictOne : XGBModel → ℚ) (target : String)
    (target_res : List (String × ℚ)) (q : ℚ) (m : XGBModel)
    (hlk : dictLookup (modelNameOf target q) models = some m) :
    predictStep models predictOne target target_res q
      = dictInsert target_res (quantileLabel q) (predictOne m) := by
  unfold predictStep
  rw [hlk]

/-- Labels in a per-target prediction dictionary: a label is present after
the quantile fold exactly when it was present already or some configured
quantile produces it and has its model in the bank. -/
lemma predict_fold_keys_iff (models : List (String × XGBModel))
    (predictOne : XGBModel → ℚ) (target : String) :
    ∀ (quantiles : List ℚ) (acc : List (String × ℚ)) (label : String),
      label ∈ ((quantiles.foldl (predictStep models predictOne target) acc).map
        Prod.fst)
      ↔ label ∈ acc.map Prod.fst
        ∨ ∃ q ∈ quantiles, label = quantileLabel q
            ∧ (dictLookup (modelNameOf target q) models).isSome = true := by
  intro quantiles
  induction quantiles with
  | nil =>
    intro acc label
    simp
  | cons q qs ih =>
    intro acc label
    rw [List.foldl_cons]
    cases hlk : dictLookup (modelNameOf target q) models with
    | none =>
      rw [predictStep_none models predictOne target acc q hlk]
      rw [ih]
      constructor
      · rintro (h | ⟨q', hq', hl, hs⟩)
        · exact Or.inl h
        · exact Or.inr ⟨q', List.mem_cons_of_mem _ hq', hl, hs⟩
      · rintro (h | ⟨q', hq', hl, hs⟩)
        · exact Or.inl h
        · rcases List.mem_cons.mp hq' with rfl | hq'
          · rw [hlk] at hs
            exact absurd hs (by simp)
          · exact Or.inr ⟨q', hq', hl, hs⟩
    | some m =>
      rw [predictStep_some models predictOne target acc q m hlk]
      rw [ih]
      rw [mem_keys_dictInsert_iff]
      constructor
      · rintro ((h | h) | ⟨q', hq', hl, hs⟩)
        · exact Or.inl h
        · exact Or.inr ⟨q, List.mem_cons_self _ _, h, by rw [hlk]; rfl⟩
        · exact Or.inr ⟨q', List.mem_cons_of_mem _ hq', hl, hs⟩
      · rintro (h | ⟨q', hq', hl, hs⟩)
        · exact Or.inl (Or.inl h)
        · rcases List.mem_cons.mp hq' with rfl | hq'
          · exact Or.inl (Or.inr hl)
          · exact Or.inr ⟨q', hq', hl, hs⟩

/-- Looking up a present key in a keyed map of a list yields its image. -/
lemma dictLookup_map_self {β : Type} (g : String → β) :
    ∀ (l : List String) (t : String), t ∈ l →
      dictLookup t (l.map (fun x => (x, g x))) = some (g t) := by
  intro l
  induction l with
  | nil =>
    intro t ht
    exact absurd ht (List.not_mem_nil t)
  | cons a rest ih =>
    intro t ht
    rw [List.map_cons]
    show (if a = t then some (g a) else dictLookup t (rest.map fun x => (x, g x)))
        = some (g t)
    by_cases hat : a = t
    · rw [if_pos hat, hat]
    · rw [if_neg hat]
      refine ih t ?_
      rcases List.mem_cons.mp ht with h | h
      · exact absurd h.symm hat
      · exact h

/-- A successful lookup in a keyed map of a list always produces the image
of the looked-up key. -/
lemma dictLookup_map_eq {β : Type} (g : String → β) :
    ∀ (l : List String) (t : String) (tr : β),
      dictLookup t (l.map (fun x => (x, g x))) = some tr → tr = g t := by
  intro l
  induction l with
  | nil =>
    intro t tr h
    exact Option.noConfusion h
  | cons a rest ih =>
    intro t tr h
    rw [List.map_cons] at h
    by_cases hat : a = t
    · subst hat
      rw [show dictLookup a ((a, g a) :: rest.map fun x => (x, g x))
          = some (g a) by rw [dictLookup, if_pos rfl]] at h
      exact (Option.some.inj h).symm
    · rw [show dictLookup t ((a, g a) :: rest.map fun x => (x, g x))
          = dictLookup t (rest.map fun x => (x, g x)) by
        rw [dictLookup, if_neg hat]] at h
      exact ih t tr h

/-- C10: predict is total on any, possibly partial, model bank, and for
every configured target and quantile the per-target result contains the
quantile label exactly when the bank contains the pair key; a missing
(target, quantile) model is silently omitted rather than reported. -/
theorem predict_label_iff_key_in_bank
    (targets : List String) (quantiles : List ℚ)
    (models : List (String × XGBModel)) (predictOne : XGBModel → ℚ)
    (t : String) (q : ℚ) (ht : t ∈ targets) (hq : q ∈ quantiles) :
    ∃ tr, dictLookup t (predict targets quantiles models predictOne) = some tr
      ∧ (quantileLabel q ∈ tr.map Prod.fst
          ↔ (dictLookup (modelNameOf t q) models).isSome = true) := by
  refine ⟨quantiles.foldl (predictStep models predictOne t) [], ?_, ?_⟩
  · exact dictLookup_map_self
      (fun target => quantiles.foldl (predictStep models predictOne target) [])
      targets t ht
  · rw [predict_fold_keys_iff]
    constructor
    · rintro (h | ⟨q', hq', hl, hs⟩)
      · simp at h
      · have hss : toString (pyInt (q * 100)) = toString (pyInt (q' * 100)) := by
          have hdata := congrArg String.data hl
          simp only [quantileLabel, String.data_append] at hdata
          exact String.ext (List.append_cancel_left hdata)
        have hname : modelNameOf t q' = modelNameOf t q := by
          unfold modelNameOf
          rw [hss]
        rw [hname] at hs
        exact hs
    · intro hs
      exact Or.inr ⟨q, hq, rfl, hs⟩

/-- Witness for the label-iff-key theorem at a one-target, one-quantile
bank. -/
theorem predict_label_iff_key_in_bank_witness :
    ∃ tr, dictLookup "Salary"
        (predict ["Salary"] [1]
          [("Salary_p100", { quantile_alpha := 1, num_boost_round := 3 })]
          (fun _ => 42)) = some tr
      ∧ (quantileLabel 1 ∈ tr.map Prod.fst
          ↔ (dictLookup (modelNameOf "Salary" 1)
              ([("Salary_p100",
                { quantile_alpha := 1, num_boost_round := 3 })] :
                  List (String × XGBModel))).isSome = true) :=
  predict_label_iff_key_in_bank ["Salary"] [1]
    [("Salary_p100", { quantile_alpha := 1, num_boost_round := 3 })]
    (fun _ => 42) "Salary" 1
    (List.mem_singleton.mpr rfl) (List.mem_singleton.mpr rfl)

/-- C6 counterexample: the quantile 333/500 = 0.666 lies in (0, 1], the
bank key built by training is Salary_p66 and the label is p66 (truncation
by int), while round(q*100) is 67, so neither the externally visible key
nor the label matches the round-based convention. -/
theorem quantile_key_truncates_not_rounds_cex :
    (0 : ℚ) < 333/500 ∧ (333/500 : ℚ) ≤ 1
    ∧ (train ["Salary"] [333/500] cvGood).1.map Prod.fst = ["Salary_p66"]
    ∧ quantileLabel (333/500) = "p66"
    ∧ pyRound ((333/500 : ℚ) * 100) = 67
    ∧ ("Salary_p66" : String) ≠ "Salary_p" ++ toString (pyRound ((333/500 : ℚ) * 100))
    ∧ quantileLabel (333/500) ≠ "p" ++ toString (pyRound ((333/500 : ℚ) * 100)) := by
  have hmul : (333/500 : ℚ) * 100 = 333/5 := by norm_num
  have hfloor : ⌊(333/5 : ℚ)⌋ = 66 := by
    rw [Int.floor_eq_iff]
    norm_num
  have hint : pyInt ((333/500 : ℚ) * 100) = 66 := by
    unfold pyInt
    rw [hmul, if_pos (by norm_num : (0:ℚ) ≤ 333/5)]
    exact hfloor
  have hround : pyRound ((333/500 : ℚ) * 100) = 67 := by
    unfold pyRound
    rw [hmul, hfloor]
    rw [if_neg (by norm_num : ¬((333/5 : ℚ) - (66:ℤ) < 1/2))]
    rw [if_pos (by norm_num : (1/2 : ℚ) < (333/5 : ℚ) - (66:ℤ))]
    norm_num
  have hlabel : quantileLabel (333/500) = "p66" := by
    unfold quantileLabel
    rw [hint]
    rfl
  have hname : modelNameOf "Salary" (333/500) = "Salary_p66" := by
    unfold modelNameOf
    rw [hint]
    rfl
  have hkeys : (train ["Salary"] [333/500] cvGood).1.map Prod.fst
      = ["Salary_p66"] := by
    have hstep : (train ["Salary"] [333/500] cvGood).1
        = [(modelNameOf "Salary" (333/500),
            { quantile_alpha := 333/500, num_boost_round := 2 })] := rfl
    rw [hstep, List.map_cons, hname]
    rfl
  refine ⟨by norm_num, by norm_num, hkeys, hlabel, hround, ?_, ?_⟩
  · rw [hround]
    decide
  · rw [hlabel, hround]
    decide

/-- C6 amended: every externally visible bank key has the form
target_p int(q*100) for a configured pair and every prediction label the
form p int(q*100) for a configured quantile, where int truncates toward
zero; this coincides with round(q*100) whenever the fractional part of
q*100 is below one half (for example 0.5 gives p50), but not in general. -/
theorem bank_keys_and_labels_use_int_truncation :
    (∀ (targets : List String) (quantiles : List ℚ) (cv : String → ℚ → CVResults)
        (key : String),
      key ∈ ((train targets quantiles cv).1.map Prod.fst) →
      ∃ t ∈ targets, ∃ q ∈ quantiles,
        key = t ++ "_p" ++ toString (pyInt (q * 100)))
    ∧ (∀ (targets : List String) (quantiles : List ℚ)
        (models : List (String × XGBModel)) (predictOne : XGBModel → ℚ)
        (t : String) (tr : List (String × ℚ)) (label : String),
      dictLookup t (predict targets quantiles models predictOne) = some tr →
      label ∈ tr.map Prod.fst →
      ∃ q ∈ quantiles, label = "p" ++ toString (pyInt (q * 100)))
    ∧ (∀ q : ℚ, 0 ≤ q → q * 100 - ⌊q * 100⌋ < 1/2 →
        pyInt (q * 100) = pyRound (q * 100)) := by
  refine ⟨?_, ?_, ?_⟩
  · intro targets quantiles cv key hkey
    rcases trainLoop_keys cv (train_pairs targets quantiles) [] key hkey
      with h | ⟨p, hp, hkeyeq⟩
    · simp at h
    · unfold train_pairs at hp
      rcases List.mem_flatMap.mp hp with ⟨t, ht, hmem⟩
      rcases List.mem_map.mp hmem with ⟨q, hq, hpq⟩
      refine ⟨t, ht, q, hq, ?_⟩
      rw [hkeyeq, ← hpq]
      rfl
  · intro targets quantiles models predictOne t tr label hlk hlabel
    have htr : tr = quantiles.foldl (predictStep models predictOne t) [] :=
      dictLookup_map_eq
        (fun target => quantiles.foldl (predictStep models predictOne target) [])
        targets t tr hlk
    subst htr
    rcases (predict_fold_keys_iff models predictOne t quantiles [] label).mp hlabel
      with h | ⟨q, hq, hl, _⟩
    · simp at h
    · exact ⟨q, hq, hl⟩
  · intro q hq hfrac
    have h0 : (0:ℚ) ≤ q * 100 := mul_nonneg hq (by norm_num)
    simp only [pyInt, pyRound]
    rw [if_pos h0, if_pos hfrac]

/-- Witness for the truncation convention theorem: quantile 0.25, whose
percent value has no fractional part, so int and round agree on p25. -/
theorem bank_keys_and_labels_use_int_truncation_witness :
    pyInt ((1/4 : ℚ) * 100) = pyRound ((1/4 : ℚ) * 100) := by
  have hm : (1/4 : ℚ) * 100 = 25 := by norm_num
  exact bank_keys_and_labels_use_int_truncation.2.2 (1/4) (by norm_num)
    (by rw [hm, (by decide : ⌊(25:ℚ)⌋ = (25:ℤ))]; norm_num)

/-- A key absent from the association list is not found. -/
lemma dictLookup_eq_none_of_notmem {β : Type} :
    ∀ (ms : List (String × β)) (key : String),
      key ∉ ms.map Prod.fst → dictLookup key ms = none := by
  intro ms
  induction ms with
  | nil =>
    intro key _
    rfl
  | cons p rest ih =>
    intro key hkey
    rw [List.map_cons, List.mem_cons] at hkey
    push_neg at hkey
    show (if p.1 = key then some p.2 else dictLookup key rest) = none
    rw [if_neg (fun hc => hkey.1 hc.symm)]
    exact ih key hkey.2

/-- C7: transform produces one output per input; a value absent from the
table becomes the sentinel -1 and a present value becomes its configured
rank; being a pure function of the table and the column, two calls on the
same input yield the same output. -/
theorem rankedCategoryEncoder_transform_sentinel
    (mapping : List (String × Int)) (X : List String) (i : Nat)
    (hi : i < X.length) :
    (RankedCategoryEncoder.transform mapping X).length = X.length
    ∧ (X.getD i "" ∉ mapping.map Prod.fst →
        (RankedCategoryEncoder.transform mapping X).getD i 0 = -1)
    ∧ (∀ r : Int, dictLookup (X.getD i "") mapping = some r →
        (RankedCategoryEncoder.transform mapping X).getD i 0 = r)
    ∧ RankedCategoryEncoder.transform mapping X
        = RankedCategoryEncoder.transform mapping X := by
  have hget : (RankedCategoryEncoder.transform mapping X).getD i 0
      = (dictLookup (X.getD i "") mapping).getD (-1) := by
    unfold RankedCategoryEncoder.transform
    rw [List.getD_eq_getElem?_getD, List.getElem?_map,
      List.getElem?_eq_getElem hi, List.getD_eq_getElem?_getD,
      List.getElem?_eq_getElem hi]
    rfl
  refine ⟨by simp [RankedCategoryEncoder.transform], ?_, ?_, rfl⟩
  · intro habs
    rw [hget, dictLookup_eq_none_of_notmem mapping _ habs]
    rfl
  · intro r hr
    rw [hget, hr]
    rfl

/-- Witness for the sentinel theorem: a two-entry vocabulary and an input
whose second value is unknown. -/
theorem rankedCategoryEncoder_transform_sentinel_witness :
    (RankedCategoryEncoder.transform [("E3", 0), ("E4", 1)]
        ["E4", "Zed"]).getD 1 0 = -1 := by
  have h := rankedCategoryEncoder_transform_sentinel [("E3", 0), ("E4", 1)]
    ["E4", "Zed"] 1 (by decide)
  exact h.2.1 (by decide)

/-- A record dated strictly after the reference date has clipped age 0. -/
lemma ageYears_of_future (refDays d : Int) (h : refDays < d) :
    ageYears refDays d = 0 := by
  unfold ageYears
  rw [max_eq_left]
  apply div_nonpos_of_nonpos_of_nonneg
  · apply mul_nonpos_of_nonpos_of_nonneg
    · have hsub : refDays - d ≤ 0 := by omega
      exact_mod_cast hsub
    · norm_num
  · norm_num

/-- The reference date itself has clipped age 0. -/
lemma ageYears_self (refDays : Int) : ageYears refDays refDays = 0 := by
  unfold ageYears
  simp

/-- An age-zero record has weight exactly 1, for every decay parameter. -/
lemma weightOf_eq_one_of_age_zero (k : ℝ) (refDays d : Int)
    (h : ageYears refDays d = 0) : weightOf k refDays d = 1 := by
  unfold weightOf
  rw [h]
  push_cast
  rw [add_zero, Real.one_rpow]
  norm_num

/-- With decay parameter 0 the weight is 1 regardless of the age. -/
lemma weightOf_k_zero (refDays d : Int) : weightOf 0 refDays d = 1 := by
  unfold weightOf
  rw [Real.rpow_zero]
  norm_num

/-- C8: on a fully parseable column, every row gets the recency weight
(1 + clipped age)^(-k); a future-dated row gets weight 1.0, the same as
the weight at age zero; and with k = 0 every row gets weight 1.0. -/
theorem sampleWeighter_transform_weights (k : ℝ) (refDays : Int)
    (dates : List Int) (i : Nat) (hi : i < dates.length) :
    ((SampleWeighter.transform k refDays (dates.map some)).getD i none
        = some (weightOf k refDays (dates.getD i 0)))
    ∧ (refDays < dates.getD i 0 →
        (SampleWeighter.transform k refDays (dates.map some)).getD i none
          = some 1)
    ∧ weightOf k refDays refDays = 1
    ∧ (k = 0 →
        (SampleWeighter.transform k refDays (dates.map some)).getD i none
          = some 1) := by
  have hrow : (SampleWeighter.transform k refDays (dates.map some)).getD i none
      = some (weightOf k refDays (dates.getD i 0)) := by
    cases dates with
    | nil => simp at hi
    | cons d rest =>
      unfold SampleWeighter.transform
      rw [if_neg (by simp)]
      rw [List.map_map, List.getD_eq_getElem?_getD, List.getElem?_map,
        List.getElem?_eq_getElem hi, List.getD_eq_getElem?_getD,
        List.getElem?_eq_getElem hi]
      rfl
  refine ⟨hrow, ?_, weightOf_eq_one_of_age_zero k refDays refDays
    (ageYears_self refDays), ?_⟩
  · intro hfut
    rw [hrow, weightOf_eq_one_of_age_zero k refDays _
      (ageYears_of_future refDays _ hfut)]
  · intro hk
    subst hk
    rw [hrow, weightOf_k_zero]

/-- Witness for the weight theorem: reference day 0, a single future date,
decay 2: the row weight is 1. -/
theorem sampleWeighter_transform_weights_witness :
    (SampleWeighter.transform 2 0 ([5].map some)).getD 0 none = some 1 := by
  have h := sampleWeighter_transform_weights 2 0 [5] 0 (by decide)
  exact h.2.1 (by decide)

/-- C9 counterexample: on a fully unparseable one-entry column the
model/preprocessing SampleWeighter raises instead of falling back, while
the xgboost SampleWeighter falls back to the uniform weight 1.0. -/
theorem sampleWeighterModel_raises_on_unparseable_cex :
    SampleWeighterModel.transform 1 0 [none]
        = .error "Unknown datetime string format"
    ∧ SampleWeighter.transform 1 0 [none] = [some 1] := by
  constructor
  · unfold SampleWeighterModel.transform
    rw [if_neg (by simp)]
  · unfold SampleWeighter.transform
    rw [if_pos (by simp)]
    rfl

/-- C9 amended: the xgboost SampleWeighter falls back to the uniform
weight 1.0 on a column with no parseable entry, while the
model/preprocessing SampleWeighter raises on a column with any
unparseable entry. -/
theorem sampleWeighter_unparseable_fallback_vs_raise (k : ℝ) (refDays : Int)
    (dates : List (Option Int)) :
    (dates.all (fun d => d.isNone) = true →
      SampleWeighter.transform k refDays dates = dates.map (fun _ => some 1))
    ∧ (dates.all (fun d => d.isSome) = false →
      SampleWeighterModel.transform k refDays dates
        = .error "Unknown datetime string format") := by
  constructor
  · intro h
    unfold SampleWeighter.transform
    rw [if_pos h]
  · intro h
    unfold SampleWeighterModel.transform
    rw [if_neg (by simp [h])]

/-- Witness for the fallback-versus-raise theorem at a concrete
unparseable column. -/
theorem sampleWeighter_unparseable_fallback_vs_raise_witness :
    SampleWeighter.transform 3 7 [none, none] = [some 1, some 1] := by
  have h := (sampleWeighter_unparseable_fallback_vs_raise 3 7 [none, none]).1
    (by decide)
  rw [h]
  rfl

end AutoQuantile
